import Mathlib

/-!
Verification development for the scoped web crawler `scraper.py`.

The embedding models, faithfully to the source:
- the `Uri`/`Url` value classes and `Url.normalize`, `Url.parse`, `Url.relative`;
- the behaviour of the external parser `urllib3.util.parse_url` (version 1.26
  line) that `Url.parse` and `Url.relative` delegate to, including the
  `//`-prepending for scheme-less inputs, the regex component split, host/port
  splitting, dot-segment removal and the `urllib3.util.Url` constructor
  invariants (leading-slash paths, lower-cased schemes);
- `requests.structures.CaseInsensitiveDict` used for header sets;
- the SQLite-backed `Database` (rows of the `url` and `header` tables),
  `HTTPCache.fetch` with the transport as an explicit collaborator function,
  `split_list`, `extract_links`, `ScrapePolicy.should_scrape` and the
  breadth-first loop of `cmd_scrape`.

Elisions from the `urllib3` model, none of which affect the stated theorems:
percent-encoding of invalid characters is modelled as the identity, bracketed
IPv6 authorities are modelled as parse failures, and IDNA encoding of
non-ASCII host labels is modelled as ASCII lower-casing.

Python `None`-vs-empty-string distinctions are preserved (`Option String`),
and Python truthiness (`None` and `""` both falsy) is modelled explicitly.
-/

namespace Scraper

/-- ASCII lower-casing of one character, as Python `str.lower` acts on the
ASCII range (non-ASCII characters are left unchanged by this model). -/
def pyLowerChar (c : Char) : Char :=
  if h : 65 ≤ c.toNat ∧ c.toNat ≤ 90 then
    Char.ofNatAux (c.toNat + 32) (Or.inl (by omega))
  else c

/-- Python `str.lower` restricted to the ASCII range. -/
def pyLower (s : String) : String :=
  ⟨s.data.map pyLowerChar⟩

/-- Truthiness of a Python `Optional[str]`: `None` and `""` are falsy. -/
def pyFalsy : Option String → Bool
  | none => true
  | some s => s = ""

/-- Python `a or b` for `a : Optional[str]`, `b : str`. -/
def pyOr (a : Option String) (b : String) : String :=
  match a with
  | none => b
  | some s => if s = "" then b else s

theorem pyLowerChar_idem (c : Char) : pyLowerChar (pyLowerChar c) = pyLowerChar c := by
  unfold pyLowerChar
  by_cases h : 65 ≤ c.toNat ∧ c.toNat ≤ 90
  · rw [dif_pos h]
    have ht : (Char.ofNatAux (c.toNat + 32) (Or.inl (by omega))).toNat = c.toNat + 32 := rfl
    rw [dif_neg (by omega)]
  · rw [dif_neg h, dif_neg h]

theorem pyLower_idem (s : String) : pyLower (pyLower s) = pyLower s := by
  rw [String.ext_iff]
  show List.map pyLowerChar (List.map pyLowerChar s.data) = List.map pyLowerChar s.data
  rw [List.map_map]
  exact List.map_congr_left fun c _ => pyLowerChar_idem c

theorem pyLower_eq_empty_iff (s : String) : pyLower s = "" ↔ s = "" := by
  unfold pyLower
  cases s with
  | mk data =>
    cases data with
    | nil => simp
    | cons c cs => simp [String.ext_iff]

/-- Identifier for a resource, encoded as host and path (`class Uri`). -/
structure Uri where
  host : String
  path : String
deriving DecidableEq, Repr

/-- Normalized variant of urllib3 `Url` (`class Url` of the scraper). -/
structure Url where
  scheme : String
  uri : Uri
  query : Option String
  fragment : Option String
deriving DecidableEq, Repr

/-- The fields of a `urllib3.util.Url` value that the scraper reads
(`scheme`, `host`, `path`, `query`, `fragment`; `auth` and `port` are parsed
by the library but never read by the scraper, so they are handled inside the
parse function below and not stored). -/
structure RawUrl where
  scheme : Option String
  host : Option String
  path : Option String
  query : Option String
  fragment : Option String
deriving DecidableEq, Repr

/-- The `urllib3.util.Url.__new__` constructor normalisation: a non-empty path
not starting with `/` gets `/` prepended, and a non-`None` scheme is
lower-cased. -/
def mkRawUrl (scheme host path query fragment : Option String) : RawUrl :=
  { scheme := scheme.map pyLower
    host := host
    path :=
      match path with
      | none => none
      | some p => some (if p ≠ "" ∧ ¬ p.data.head? = some '/' then "/" ++ p else p)
    query := query
    fragment := fragment }

/-- `Url.normalize`: asserts the host is present (`assert url.host is not
None`, modelled as `none` on failure), defaults an empty scheme to `http` and
an empty path to `/`, and passes the other fields through. -/
def Url.normalize (raw : RawUrl) : Option Url :=
  match raw.host with
  | none => none
  | some h =>
    some { scheme := pyOr raw.scheme "http"
           uri := { host := h, path := pyOr raw.path "/" }
           query := raw.query
           fragment := raw.fragment }

/-- The `Url.url` property: rebuilding a `urllib3.util.Url` from the scraper
`Url`'s fields (going through the library constructor's normalisation). -/
def Url.toRaw (u : Url) : RawUrl :=
  mkRawUrl (some u.scheme) (some u.uri.host) (some u.uri.path) u.query u.fragment

/-- `ScrapePolicy.should_scrape`: reject a URL whose host differs from the
root's host, reject schemes other than `http`/`https`, accept the rest. -/
def should_scrape (root : Url) (url : Url) : Bool :=
  if url.uri.host ≠ root.uri.host then false
  else if ¬ (url.scheme = "http" ∨ url.scheme = "https") then false
  else true

/-- Characters of the scheme run in `URI_RE`: `[a-zA-Z0-9+.-]`. -/
def uriSchemeChar (c : Char) : Bool :=
  c.isAlpha || c.isDigit || c == '+' || c == '-' || c == '.'

/-- Characters of the scheme run in `SCHEME_RE` (note: no dot): `[a-zA-Z0-9+-]`. -/
def preSchemeChar (c : Char) : Bool :=
  c.isAlpha || c.isDigit || c == '+' || c == '-'

/-- Test of `SCHEME_RE` (`^(?:[a-zA-Z][a-zA-Z0-9+-]*:|/)`): used by
`parse_url` to decide whether to prepend `//` to the input. -/
def schemeReMatches (cs : List Char) : Bool :=
  match cs with
  | [] => false
  | c :: rest =>
    if c == '/' then true
    else if c.isAlpha then (rest.dropWhile preSchemeChar).head? == some ':'
    else false

/-- The optional scheme group of `URI_RE`: an alphabetic head, a run of scheme
characters, then a literal `:`; on a match returns the scheme and the
remaining input, otherwise leaves the input untouched. -/
def splitScheme (cs : List Char) : Option (List Char) × List Char :=
  match cs with
  | [] => (none, [])
  | c :: rest =>
    if c.isAlpha then
      match rest.dropWhile uriSchemeChar with
      | ':' :: tail => (some (c :: rest.takeWhile uriSchemeChar), tail)
      | _ => (none, cs)
    else (none, cs)

/-- Characters allowed inside the authority group of `URI_RE` (`[^\\/?#]`). -/
def authorityChar (c : Char) : Bool :=
  !(c == '\\' || c == '/' || c == '?' || c == '#')

/-- Characters allowed inside the path group of `URI_RE` (`[^?#]`). -/
def pathChar (c : Char) : Bool :=
  !(c == '?' || c == '#')

/-- Result of the anchored `URI_RE` component split. -/
structure UriSplit where
  scheme : Option (List Char)
  authority : Option (List Char)
  path : List Char
  query : Option (List Char)
  fragment : Option (List Char)

/-- The `URI_RE` regex split into scheme / authority / path / query /
fragment. Optional groups are `none` when absent and may be empty lists when
present, exactly as the regex distinguishes unmatched from empty groups. -/
def uriSplit (cs : List Char) : UriSplit :=
  let s1 := splitScheme cs
  let ar : Option (List Char) × List Char :=
    match s1.2 with
    | '/' :: '/' :: tail => (some (tail.takeWhile authorityChar), tail.dropWhile authorityChar)
    | r => (none, r)
  let path := ar.2.takeWhile pathChar
  let r2 := ar.2.dropWhile pathChar
  let qr : Option (List Char) × List Char :=
    match r2 with
    | '?' :: tail =>
      (some (tail.takeWhile (fun c => !(c == '#'))), tail.dropWhile (fun c => !(c == '#')))
    | r => (none, r)
  let frag : Option (List Char) :=
    match qr.2 with
    | '#' :: tail => some tail
    | _ => none
  ⟨s1.1, ar.1, path, qr.1, frag⟩

/-- Hexadecimal digit test for percent-escapes in `REG_NAME_PAT`. -/
def hexChar (c : Char) : Bool :=
  c.isDigit || ('a' ≤ c && c ≤ 'f') || ('A' ≤ c && c ≤ 'F')

/-- Test of `REG_NAME_PAT` (`(?:[^\[\]%:/?#]|%[a-fA-F0-9]{2})*`). -/
def regNameOk : List Char → Bool
  | [] => true
  | '%' :: rest =>
    match rest with
    | h1 :: h2 :: rest2 => hexChar h1 && hexChar h2 && regNameOk rest2
    | _ => false
  | c :: rest =>
    !(c == '[' || c == ']' || c == ':' || c == '/' || c == '?' || c == '#') && regNameOk rest

/-- Split `host_port` per `_HOST_PORT_RE`: a reg-name host (IPv6 bracket
forms are modelled as failures), optionally followed by `:` and a digit
string that, stripped of leading zeros, has at most five digits. `none`
models a failed regex match (`LocationParseError`). -/
def splitHostPort (hp : List Char) : Option (List Char × Option (List Char)) :=
  let host := hp.takeWhile (fun c => !(c == ':'))
  let rest := hp.dropWhile (fun c => !(c == ':'))
  if !(regNameOk host) then none
  else
    match rest with
    | [] => some (host, none)
    | ':' :: p =>
      if p.all Char.isDigit && (p.dropWhile (fun c => c == '0')).length ≤ 5 then
        some (host, some p)
      else none
    | _ => none

/-- Numeric value of a digit string, for the port range check. -/
def digitsToNat (ds : List Char) : Nat :=
  ds.foldl (fun n c => 10 * n + (c.toNat - 48)) 0

/-- Python `str.rpartition` at the last occurrence of `sep`: `none` when the
separator is absent, otherwise the parts before and after it. -/
def lastSplitAt (sep : Char) (cs : List Char) : Option (List Char × List Char) :=
  let afterRev := cs.reverse.takeWhile (fun c => !(c == sep))
  if afterRev.length = cs.length then none
  else some (cs.take (cs.length - afterRev.length - 1), afterRev.reverse)

/-- `_normalize_host`: lower-case the host when the scheme is normalizable
(absent, `http` or `https`). The IPv4 branch is the identity on its inputs
anyway, and IDNA encoding of non-ASCII labels is modelled as this same
ASCII lower-casing. -/
def normalizeHost (host : List Char) (normUri : Bool) : List Char :=
  if host.isEmpty then host
  else if normUri then host.map pyLowerChar else host

/-- Python `text.split(sep)` for a single-character separator. -/
def splitChar (sep : Char) : List Char → List (List Char)
  | [] => [[]]
  | c :: rest =>
    let r := splitChar sep rest
    if c == sep then [] :: r
    else
      match r with
      | x :: xs => (c :: x) :: xs
      | [] => [[c]]

/-- `_remove_path_dot_segments` (RFC 3986 §5.2.4 as implemented): drop `.`
segments, let `..` pop the previous segment, restore a leading slash and a
trailing slash for paths ending in `/.` or `/..`. -/
def removeDotSegments (p : List Char) : List Char :=
  let segs := splitChar '/' p
  let out := segs.foldl
    (fun acc seg =>
      if seg = ['.'] then acc
      else if seg ≠ ['.', '.'] then acc ++ [seg]
      else acc.dropLast) []
  let out2 := if p.head? = some '/' ∧ (out = [] ∨ out.headI ≠ []) then [] :: out else out
  let out3 :=
    if p.reverse.take 2 = ['.', '/'] ∨ p.reverse.take 3 = ['.', '.', '/'] then out2 ++ [[]]
    else out2
  List.intercalate ['/'] out3

/-- Lower-cased scheme from the regex split (`if scheme: scheme =
scheme.lower()`). -/
def parseScheme (sp : UriSplit) : Option String :=
  (sp.scheme.map (List.map pyLowerChar)).map String.mk

/-- `normalize_uri`: the scheme is absent or (case-insensitively) `http` or
`https`. -/
def parseNormUri (sp : UriSplit) : Bool :=
  match sp.scheme with
  | none => true
  | some sch =>
    String.mk (sch.map pyLowerChar) == "http" || String.mk (sch.map pyLowerChar) == "https"

/-- Host extraction from the authority: a falsy authority gives no host;
otherwise split auth away at the last `@`, split host and port per
`_HOST_PORT_RE`, drop an empty port, and range-check a present port.
The outer `none` models `LocationParseError`. -/
def parseHost (sp : UriSplit) : Option (Option (List Char)) :=
  match sp.authority with
  | none => some none
  | some [] => some none
  | some a =>
    let hp :=
      match lastSplitAt '@' a with
      | none => a
      | some pr => pr.2
    match splitHostPort hp with
    | none => none
    | some (h, p?) =>
      match p? with
      | none => some (some h)
      | some [] => some (some h)
      | some ds => if digitsToNat ds ≤ 65535 then some (some h) else none

/-- Path handling of `parse_url`: dot-segment removal for normalizable
schemes, then the backwards-compatibility rule turning an empty path into
`""` when a query or fragment is present and `None` otherwise. -/
def parsePath (sp : UriSplit) (normUri : Bool) : Option String :=
  let path1 := if normUri && !sp.path.isEmpty then removeDotSegments sp.path else sp.path
  if path1.isEmpty then
    (if sp.query.isSome || sp.fragment.isSome then some "" else none)
  else some (String.mk path1)

/-- Model of `urllib3.util.parse_url` (1.26 line). `none` models
`LocationParseError`. Percent-encoding of invalid characters is modelled as
the identity; bracketed IPv6 authorities fail; IDNA is ASCII lower-casing. -/
def parseUrl (s : String) : Option RawUrl :=
  match s.data with
  | [] => some ⟨none, none, none, none, none⟩
  | c0 :: rest0 =>
    let cs := if schemeReMatches (c0 :: rest0) then c0 :: rest0 else '/' :: '/' :: c0 :: rest0
    let sp := uriSplit cs
    match parseHost sp with
    | none => none
    | some host? =>
      some (mkRawUrl (parseScheme sp)
              ((host?.map (fun h => normalizeHost h (parseNormUri sp))).map String.mk)
              (parsePath sp (parseNormUri sp))
              (sp.query.map String.mk) (sp.fragment.map String.mk))

/-- `Url.parse`: parse the string with `parse_url`, then normalize. -/
def Url.parse (s : String) : Option Url :=
  match parseUrl s with
  | none => none
  | some raw => Url.normalize raw

/-- `posixpath.dirname`. -/
def pyDirname (p : List Char) : List Char :=
  let afterRev := p.reverse.takeWhile (fun c => !(c == '/'))
  if afterRev.length = p.length then []
  else
    let head := p.take (p.length - afterRev.length)
    if head ≠ [] ∧ head.any (fun c => !(c == '/')) then
      (head.reverse.dropWhile (fun c => c == '/')).reverse
    else head

/-- `posixpath.join` for exactly two components, as called in `Url.relative`. -/
def pyJoin (a b : List Char) : List Char :=
  if b.head? = some '/' then b
  else if a.isEmpty || a.reverse.head? = some '/' then a ++ b
  else a ++ '/' :: b

/-- Body of `Url.relative` applied to the already-parsed relative component:
no path reuses the base path; an absolute path is taken verbatim; otherwise
the path is joined to the directory of the base path. Scheme and host fall
back to the base via Python `or`; query and fragment always come from the
relative component. -/
def Url.relativeRaw (self : Url) (rhs : RawUrl) : Url :=
  let path :=
    if pyFalsy rhs.path then self.uri.path
    else if (rhs.path.getD "").data.head? = some '/' then rhs.path.getD ""
    else String.mk (pyJoin (pyDirname self.uri.path.data) (rhs.path.getD "").data)
  { scheme := pyOr rhs.scheme self.scheme
    uri := { host := pyOr rhs.host self.uri.host, path := path }
    query := rhs.query
    fragment := rhs.fragment }

/-- `Url.relative`: resolve a relative URL string against `self`; `none`
models the exception path of the embedded `parse_url` call. -/
def Url.relative (self : Url) (rel : String) : Option Url :=
  (parseUrl rel).map self.relativeRaw

/-- A scraper `Url` is normal when converting it back to a `urllib3` value
and re-normalizing returns it unchanged. -/
def IsNormal (u : Url) : Prop :=
  Url.normalize u.toRaw = some u

/-- A `RawUrl` is well-formed when it is a fixed point of the
`urllib3.util.Url` constructor normalisation; every value actually
constructed by the Python library satisfies this. -/
def RawUrl.wf (raw : RawUrl) : Prop :=
  mkRawUrl raw.scheme raw.host raw.path raw.query raw.fragment = raw

theorem pyLower_fix_of_map (s : String) : pyLower (pyLower s) = pyLower s :=
  pyLower_idem s

theorem string_ne_slash_append (p : String) : "/" ++ p ≠ p := by
  intro h
  have hd : ('/' :: p.data).length = p.data.length := by
    have : ("/" ++ p).data = '/' :: p.data := rfl
    rw [← this, h]
  simp at hd

theorem pyOr_some (s b : String) : pyOr (some s) b = if s = "" then b else s := rfl

theorem pyOr_none (b : String) : pyOr none b = b := rfl

/-- Scheme component of the normalize-idempotence condition. -/
theorem normScheme_fix (s : String) :
    (if pyLower s = "" then "http" else pyLower s) = s ↔ (pyLower s = s ∧ s ≠ "") := by
  constructor
  · intro h
    by_cases he : pyLower s = ""
    · rw [if_pos he] at h
      rw [pyLower_eq_empty_iff] at he
      rw [he] at h
      exact absurd h (by decide)
    · rw [if_neg he] at h
      refine ⟨h, fun hc => he ?_⟩
      rw [hc]
      rfl
  · rintro ⟨hfix, hne⟩
    have he : pyLower s ≠ "" := fun hc => hne (by rw [← hfix, hc])
    rw [if_neg he, hfix]

/-- Path component of the normalize-idempotence condition. -/
theorem normPath_fix (p : String) :
    (if (if p ≠ "" ∧ ¬ p.data.head? = some '/' then "/" ++ p else p) = "" then "/"
     else (if p ≠ "" ∧ ¬ p.data.head? = some '/' then "/" ++ p else p)) = p ↔
      (p ≠ "" ∧ p.data.head? = some '/') := by
  constructor
  · intro h
    by_cases hc : p ≠ "" ∧ ¬ p.data.head? = some '/'
    · rw [if_pos hc] at h
      have hne : "/" ++ p ≠ "" := by
        intro he
        have : ("/" ++ p).data = [] := by rw [he]
        simp [String.data_append] at this
      rw [if_neg hne] at h
      exact absurd h (string_ne_slash_append p)
    · rw [if_neg hc] at h
      push_neg at hc
      by_cases hpe : p = ""
      · rw [if_pos hpe] at h
        rw [hpe] at h
        exact absurd h (by decide)
      · exact ⟨hpe, hc hpe⟩
  · rintro ⟨hne, hhead⟩
    have hc : ¬ (p ≠ "" ∧ ¬ p.data.head? = some '/') := by
      intro hx
      exact hx.2 hhead
    rw [if_neg hc, if_neg hne]

/-- Characterisation of `IsNormal` in terms of the components: lower-case
non-empty scheme and non-empty slash-leading path. -/
theorem isNormal_iff (u : Url) :
    IsNormal u ↔
      (pyLower u.scheme = u.scheme ∧ u.scheme ≠ "" ∧
       u.uri.path ≠ "" ∧ u.uri.path.data.head? = some '/') := by
  obtain ⟨usch, ⟨uh, up⟩, uq, uf⟩ := u
  have hexp : Url.normalize (Url.toRaw ⟨usch, ⟨uh, up⟩, uq, uf⟩) =
      some { scheme := if pyLower usch = "" then "http" else pyLower usch
             uri := { host := uh
                      path := if (if up ≠ "" ∧ ¬ up.data.head? = some '/' then "/" ++ up
                                  else up) = "" then "/"
                              else (if up ≠ "" ∧ ¬ up.data.head? = some '/' then "/" ++ up
                                    else up) }
             query := uq
             fragment := uf } := rfl
  rw [IsNormal, hexp, Option.some.injEq]
  constructor
  · intro h
    have hs : (if pyLower usch = "" then "http" else pyLower usch) = usch :=
      congrArg Url.scheme h
    have hp : (if (if up ≠ "" ∧ ¬ up.data.head? = some '/' then "/" ++ up else up) = ""
        then "/" else (if up ≠ "" ∧ ¬ up.data.head? = some '/' then "/" ++ up else up)) = up :=
      congrArg (fun w => w.uri.path) h
    obtain ⟨h1, h2⟩ := (normScheme_fix usch).mp hs
    obtain ⟨h3, h4⟩ := (normPath_fix up).mp hp
    exact ⟨h1, h2, h3, h4⟩
  · rintro ⟨h1, h2, h3, h4⟩
    have hs := (normScheme_fix usch).mpr ⟨h1, h2⟩
    have hp := (normPath_fix up).mpr ⟨h3, h4⟩
    rw [hs, hp]

theorem splitScheme_fst_shape (cs : List Char) :
    (splitScheme cs).1 = none ∨ ∃ c l, (splitScheme cs).1 = some (c :: l) := by
  cases cs with
  | nil => exact Or.inl rfl
  | cons c rest =>
    simp only [splitScheme]
    by_cases h : c.isAlpha
    · rw [if_pos h]
      split
      · exact Or.inr ⟨c, rest.takeWhile uriSchemeChar, rfl⟩
      · exact Or.inl rfl
    · rw [if_neg h]
      exact Or.inl rfl

theorem uriSplit_scheme (cs : List Char) : (uriSplit cs).scheme = (splitScheme cs).1 := rfl

theorem parseScheme_shape (sp : UriSplit) (hsp : ∀ l, sp.scheme = some l → l ≠ []) :
    parseScheme sp = none ∨ ∃ t, parseScheme sp = some t ∧ t ≠ "" := by
  unfold parseScheme
  cases hs : sp.scheme with
  | none => exact Or.inl rfl
  | some l =>
    right
    refine ⟨String.mk (l.map pyLowerChar), rfl, ?_⟩
    have hne := hsp l hs
    cases l with
    | nil => exact absurd rfl hne
    | cons a as => simp [String.ext_iff]

/-- Every successful `parse_url` result is an application of the `urllib3`
constructor to a scheme that is absent or non-empty. -/
theorem parseUrl_shape (s : String) (raw : RawUrl) (h : parseUrl s = some raw) :
    ∃ sch hst pth q f, raw = mkRawUrl sch hst pth q f ∧
      (sch = none ∨ ∃ t, sch = some t ∧ t ≠ "") := by
  unfold parseUrl at h
  cases hs : s.data with
  | nil =>
    rw [hs] at h
    exact ⟨none, none, none, none, none, by simpa [mkRawUrl] using h.symm, Or.inl rfl⟩
  | cons c0 rest0 =>
    rw [hs] at h
    simp only [] at h
    split at h
    · exact absurd h (by simp)
    · rename_i host? hmatch
      rw [Option.some.injEq] at h
      refine ⟨_, _, _, _, _, h.symm, ?_⟩
      apply parseScheme_shape
      intro l hl
      rw [uriSplit_scheme] at hl
      rcases splitScheme_fst_shape (if schemeReMatches (c0 :: rest0) then c0 :: rest0
          else '/' :: '/' :: c0 :: rest0) with hn | ⟨c, lx, hsome⟩
      · rw [hn] at hl
        exact absurd hl (by simp)
      · rw [hsome] at hl
        rw [Option.some.injEq] at hl
        rw [← hl]
        simp

theorem mkRawUrl_scheme (s h p q f : Option String) :
    (mkRawUrl s h p q f).scheme = s.map pyLower := rfl

theorem mkRawUrl_path_shape (s h p q f : Option String) :
    (mkRawUrl s h p q f).path = none ∨ (mkRawUrl s h p q f).path = some "" ∨
      ∃ x, (mkRawUrl s h p q f).path = some x ∧ x.data.head? = some '/' := by
  cases p with
  | none => exact Or.inl rfl
  | some p0 =>
    have hshow : (mkRawUrl s h (some p0) q f).path =
        some (if p0 ≠ "" ∧ ¬ p0.data.head? = some '/' then "/" ++ p0 else p0) := rfl
    by_cases hc : p0 ≠ "" ∧ ¬ p0.data.head? = some '/'
    · refine Or.inr (Or.inr ⟨"/" ++ p0, ?_, ?_⟩)
      · rw [hshow, if_pos hc]
      · simp [String.data_append]
    · push_neg at hc
      by_cases hpe : p0 = ""
      · refine Or.inr (Or.inl ?_)
        rw [hshow, if_neg (by simp [hpe]), hpe]
      · refine Or.inr (Or.inr ⟨p0, ?_, hc hpe⟩)
        rw [hshow, if_neg (by simp [hpe, hc hpe])]

/-- Paths produced by `parse_url` are absent, empty, or slash-leading
(consequence of the constructor's slash-prepending). -/
theorem parseUrl_path_shape (s : String) (raw : RawUrl) (h : parseUrl s = some raw) :
    raw.path = none ∨ raw.path = some "" ∨
      ∃ x, raw.path = some x ∧ x.data.head? = some '/' := by
  obtain ⟨sch, hst, pth, q, f, hraw, _⟩ := parseUrl_shape s raw h
  rw [hraw]
  exact mkRawUrl_path_shape sch hst pth q f

/-- Schemes produced by `parse_url` are absent, or non-empty and fixed by
lower-casing. -/
theorem parseUrl_scheme_shape (s : String) (raw : RawUrl) (h : parseUrl s = some raw) :
    raw.scheme = none ∨ ∃ t, raw.scheme = some t ∧ t ≠ "" ∧ pyLower t = t := by
  obtain ⟨sch, hst, pth, q, f, hraw, hsch⟩ := parseUrl_shape s raw h
  rw [hraw, mkRawUrl_scheme]
  rcases hsch with hn | ⟨t, ht, htne⟩
  · rw [hn]
    exact Or.inl rfl
  · rw [ht]
    exact Or.inr ⟨pyLower t, rfl,
      fun hc => htne ((pyLower_eq_empty_iff t).mp hc), pyLower_idem t⟩

theorem relativeRaw_scheme (u : Url) (rhs : RawUrl) :
    (u.relativeRaw rhs).scheme = pyOr rhs.scheme u.scheme := rfl

theorem relativeRaw_host (u : Url) (rhs : RawUrl) :
    (u.relativeRaw rhs).uri.host = pyOr rhs.host u.uri.host := rfl

theorem relativeRaw_query (u : Url) (rhs : RawUrl) :
    (u.relativeRaw rhs).query = rhs.query := rfl

theorem relativeRaw_fragment (u : Url) (rhs : RawUrl) :
    (u.relativeRaw rhs).fragment = rhs.fragment := rfl

theorem relativeRaw_path (u : Url) (rhs : RawUrl) :
    (u.relativeRaw rhs).uri.path =
      if pyFalsy rhs.path then u.uri.path
      else if (rhs.path.getD "").data.head? = some '/' then rhs.path.getD ""
      else String.mk (pyJoin (pyDirname u.uri.path.data) (rhs.path.getD "").data) := rfl

theorem normalize_none (raw : RawUrl) (hh : raw.host = none) : Url.normalize raw = none := by
  unfold Url.normalize
  rw [hh]

theorem normalize_some (raw : RawUrl) (h : String) (hh : raw.host = some h) :
    Url.normalize raw =
      some { scheme := pyOr raw.scheme "http"
             uri := { host := h, path := pyOr raw.path "/" }
             query := raw.query
             fragment := raw.fragment } := by
  unfold Url.normalize
  rw [hh]

/-- Sample root URL `http://example.com/` in parsed form. -/
def exRoot : Url := ⟨"http", ⟨"example.com", "/"⟩, none, none⟩

/-- Sample base URL `http://example.com/a/b` in parsed form. -/
def exBase : Url := ⟨"http", ⟨"example.com", "/a/b"⟩, none, none⟩

/-- C5: `should_scrape(u)` is true exactly when `u`'s host equals the root's
host and `u`'s scheme is `http` or `https`; with root `http://example.com/`
it accepts `http://example.com/about` and rejects `http://other.com/` and
`ftp://example.com/x`. -/
theorem c5_should_scrape :
    (∀ root url : Url, should_scrape root url = true ↔
        (url.uri.host = root.uri.host ∧ (url.scheme = "http" ∨ url.scheme = "https"))) ∧
    Url.parse "http://example.com/" = some exRoot ∧
    (Url.parse "http://example.com/about").map (should_scrape exRoot) = some true ∧
    (Url.parse "http://other.com/").map (should_scrape exRoot) = some false ∧
    (Url.parse "ftp://example.com/x").map (should_scrape exRoot) = some false := by
  refine ⟨?_, by decide, by decide, by decide, by decide⟩
  intro root url
  unfold should_scrape
  by_cases h1 : url.uri.host ≠ root.uri.host
  · rw [if_pos h1]
    simp [h1]
  · rw [if_neg h1]
    push_neg at h1
    by_cases h2 : url.scheme = "http" ∨ url.scheme = "https"
    · rw [if_neg (not_not_intro h2)]
      simp [h1, h2]
    · rw [if_pos h2]
      simp [h1, h2]

/-- Decides whether `parse_url` succeeds on the string with a present host
(the condition checked by the assertion inside `Url.normalize`). -/
def hostDeterminable (s : String) : Bool :=
  match parseUrl s with
  | none => false
  | some raw => raw.host.isSome

/-- C7: `Url.parse` fails exactly on strings from which no host can be
determined (bare paths, the empty string, strings the URL parser rejects),
and succeeds with a normalized URL whenever a host is determinable. -/
theorem c7_parse_fails_iff_no_host :
    (∀ s : String, (Url.parse s).isSome = hostDeterminable s) ∧
    Url.parse "/just/a/path" = none ∧
    Url.parse "" = none ∧
    Url.parse "a.b:c" = none ∧
    Url.parse "example.com" = some ⟨"http", ⟨"example.com", "/"⟩, none, none⟩ ∧
    Url.parse "http://example.com/a/b" = some exBase := by
  refine ⟨?_, by decide, by decide, by decide, by decide, by decide⟩
  intro s
  unfold Url.parse hostDeterminable
  cases hp : parseUrl s with
  | none => rfl
  | some raw =>
    show (Url.normalize raw).isSome = raw.host.isSome
    cases hh : raw.host with
    | none => rw [normalize_none raw hh]; rfl
    | some hst => rw [normalize_some raw hst hh]; rfl

/-- C9: normalization is idempotent on every value representable as a
`urllib3.util.Url` (the constructor-normalized raw URLs): re-normalizing the
`urllib3` view of a normalized URL returns it unchanged. -/
theorem c9_normalize_idempotent (raw : RawUrl) (hwf : RawUrl.wf raw) (v : Url)
    (hv : Url.normalize raw = some v) : Url.normalize v.toRaw = some v := by
  have hsch : raw.scheme.map pyLower = raw.scheme := congrArg RawUrl.scheme hwf
  have hpa : (match raw.path with
      | none => none
      | some p => some (if p ≠ "" ∧ ¬ p.data.head? = some '/' then "/" ++ p else p)) =
        raw.path := congrArg RawUrl.path hwf
  cases hh : raw.host with
  | none => rw [normalize_none raw hh] at hv; exact absurd hv (by simp)
  | some hst =>
    rw [normalize_some raw hst hh, Option.some.injEq] at hv
    rw [← hv]
    have := isNormal_iff { scheme := pyOr raw.scheme "http"
                           uri := { host := hst, path := pyOr raw.path "/" }
                           query := raw.query, fragment := raw.fragment }
    rw [IsNormal] at this
    rw [this]
    have hS : pyLower (pyOr raw.scheme "http") = pyOr raw.scheme "http" ∧
        pyOr raw.scheme "http" ≠ "" := by
      cases hs : raw.scheme with
      | none => rw [pyOr_none]; exact ⟨by decide, by decide⟩
      | some sch =>
        rw [hs] at hsch
        simp only [Option.map_some', Option.some.injEq] at hsch
        rw [pyOr_some]
        by_cases hse : sch = ""
        · rw [if_pos hse]; exact ⟨by decide, by decide⟩
        · rw [if_neg hse]; exact ⟨hsch, hse⟩
    have hP : pyOr raw.path "/" ≠ "" ∧ (pyOr raw.path "/").data.head? = some '/' := by
      cases hp : raw.path with
      | none => rw [pyOr_none]; exact ⟨by decide, by decide⟩
      | some p =>
        rw [hp] at hpa
        simp only [Option.some.injEq] at hpa
        have hcases : p = "" ∨ p.data.head? = some '/' := by
          by_cases hc : p ≠ "" ∧ ¬ p.data.head? = some '/'
          · rw [if_pos hc] at hpa
            exact absurd hpa (string_ne_slash_append p)
          · push_neg at hc
            by_cases hpe : p = ""
            · exact Or.inl hpe
            · exact Or.inr (hc hpe)
        rw [pyOr_some]
        rcases hcases with hpe | hhead
        · rw [if_pos hpe]; exact ⟨by decide, by decide⟩
        · have hpe : p ≠ "" := by
            intro hc
            rw [hc] at hhead
            exact absurd hhead (by decide)
          rw [if_neg hpe]
          exact ⟨hpe, hhead⟩
    exact ⟨hS.1, hS.2, hP.1, hP.2⟩

instance (raw : RawUrl) : Decidable raw.wf :=
  inferInstanceAs (Decidable (_ = _))

instance (u : Url) : Decidable (IsNormal u) :=
  inferInstanceAs (Decidable (_ = _))

/-- Witness for C9 at a concrete constructor-normalized input. -/
theorem c9_witness :
    Url.normalize (Url.toRaw ⟨"http", ⟨"example.com", "/a"⟩, none, none⟩) =
      some ⟨"http", ⟨"example.com", "/a"⟩, none, none⟩ :=
  c9_normalize_idempotent ⟨some "http", some "example.com", some "/a", none, none⟩
    (by decide) ⟨"http", ⟨"example.com", "/a"⟩, none, none⟩ (by decide)

/-- C8: for every normalized base URL and every relative string, the URL
returned by `Url.relative` is itself normalized: passing it through
`normalize` returns it unchanged, and in particular its scheme and its
`uri.path` are non-empty. -/
theorem c8_relative_normalized (u : Url) (hu : IsNormal u) (rel : String) (v : Url)
    (hv : Url.relative u rel = some v) :
    Url.normalize v.toRaw = some v ∧ v.scheme ≠ "" ∧ v.uri.path ≠ "" := by
  obtain ⟨hlow, hne, hpne, hphead⟩ := (isNormal_iff u).mp hu
  rw [Url.relative, Option.map_eq_some'] at hv
  obtain ⟨raw, hparse, hrel⟩ := hv
  subst hrel
  have hS : pyLower (u.relativeRaw raw).scheme = (u.relativeRaw raw).scheme ∧
      (u.relativeRaw raw).scheme ≠ "" := by
    rw [relativeRaw_scheme]
    rcases parseUrl_scheme_shape rel raw hparse with hn | ⟨t, ht, htne, htfix⟩
    · rw [hn, pyOr_none]
      exact ⟨hlow, hne⟩
    · rw [ht, pyOr_some, if_neg htne]
      exact ⟨htfix, htne⟩
  have hP : (u.relativeRaw raw).uri.path ≠ "" ∧
      (u.relativeRaw raw).uri.path.data.head? = some '/' := by
    rw [relativeRaw_path]
    rcases parseUrl_path_shape rel raw hparse with h0 | h0 | ⟨x, hx, hxhead⟩
    · rw [h0, if_pos (by rfl)]
      exact ⟨hpne, hphead⟩
    · rw [h0, if_pos (by rfl)]
      exact ⟨hpne, hphead⟩
    · have hxne : x ≠ "" := by
        intro hc
        rw [hc] at hxhead
        exact absurd hxhead (by decide)
      rw [hx, if_neg (by simp [pyFalsy, hxne])]
      simp only [Option.getD_some]
      rw [if_pos hxhead]
      exact ⟨hxne, hxhead⟩
  have hnv : IsNormal (u.relativeRaw raw) := by
    rw [isNormal_iff]
    exact ⟨hS.1, hS.2, hP.1, hP.2⟩
  rw [IsNormal] at hnv
  exact ⟨hnv, hS.2, hP.1⟩

/-- Witness for C8 at the concrete base `http://example.com/a/b` and
relative string `c`. -/
theorem c8_witness :
    Url.normalize (Url.toRaw ⟨"http", ⟨"c", "/a/b"⟩, none, none⟩) =
        some ⟨"http", ⟨"c", "/a/b"⟩, none, none⟩ ∧
      (⟨"http", ⟨"c", "/a/b"⟩, none, none⟩ : Url).scheme ≠ "" ∧
      (⟨"http", ⟨"c", "/a/b"⟩, none, none⟩ : Url).uri.path ≠ "" :=
  c8_relative_normalized exBase (by decide) "c" ⟨"http", ⟨"c", "/a/b"⟩, none, none⟩ (by decide)

/-- C3 counterexample: with base `http://example.com/a/b`, the code resolves
the relative string `c` to `http://c/a/b` and `c?x=1` to `http://c/a/b?x=1`
(the parser treats a scheme-less string not starting with `/` as a network
location, so `c` becomes the host), not to `http://example.com/a/c` and
`http://example.com/a/c?x=1` as claimed. -/
theorem c3_counterexample :
    Url.parse "http://example.com/a/b" = some exBase ∧
    Url.relative exBase "c" = some ⟨"http", ⟨"c", "/a/b"⟩, none, none⟩ ∧
    Url.relative exBase "c" ≠ some ⟨"http", ⟨"example.com", "/a/c"⟩, none, none⟩ ∧
    Url.relative exBase "c?x=1" = some ⟨"http", ⟨"c", "/a/b"⟩, some "x=1", none⟩ ∧
    Url.relative exBase "c?x=1" ≠ some ⟨"http", ⟨"example.com", "/a/c"⟩, some "x=1", none⟩ := by
  refine ⟨by decide, by decide, by decide, by decide, by decide⟩

/-- C3 (amended): over the parsed relative component, the result path is the
base path when the relative component has no (non-empty) path, the relative
path verbatim when it starts with `/`, and otherwise — a case of the code no
relative string reaches, since `parse_url` slash-prepends every non-empty
path — the relative path joined to the directory of the base path; query and
fragment always come from the relative component. Consequently, for every
relative string the resolved path is either the base path or the parsed
relative path taken verbatim. For the concrete cases with base
`http://example.com/a/b`: `/c` gives `http://example.com/c` and `#top`
gives `http://example.com/a/b#top` as claimed, while `c` gives
`http://c/a/b` and `c?x=1` gives `http://c/a/b?x=1` because the parser
reads `c` as a host, leaving no relative path. -/
theorem c3_amended :
    (∀ (base : Url) (rhs : RawUrl), pyFalsy rhs.path = true →
        (base.relativeRaw rhs).uri.path = base.uri.path) ∧
    (∀ (base : Url) (rhs : RawUrl) (p : String), rhs.path = some p →
        p.data.head? = some '/' → (base.relativeRaw rhs).uri.path = p) ∧
    (∀ (base : Url) (rhs : RawUrl) (p : String), rhs.path = some p → p ≠ "" →
        ¬ p.data.head? = some '/' →
        (base.relativeRaw rhs).uri.path =
          String.mk (pyJoin (pyDirname base.uri.path.data) p.data)) ∧
    (∀ (base : Url) (rhs : RawUrl),
        (base.relativeRaw rhs).query = rhs.query ∧
        (base.relativeRaw rhs).fragment = rhs.fragment) ∧
    (∀ (base : Url) (rel : String) (raw : RawUrl), parseUrl rel = some raw →
        (base.relativeRaw raw).uri.path = base.uri.path ∨
        ∃ p, raw.path = some p ∧ p.data.head? = some '/' ∧
          (base.relativeRaw raw).uri.path = p) ∧
    Url.relative exBase "c" = some ⟨"http", ⟨"c", "/a/b"⟩, none, none⟩ ∧
    Url.relative exBase "/c" = some ⟨"http", ⟨"example.com", "/c"⟩, none, none⟩ ∧
    Url.relative exBase "c?x=1" = some ⟨"http", ⟨"c", "/a/b"⟩, some "x=1", none⟩ ∧
    Url.relative exBase "#top" = some ⟨"http", ⟨"example.com", "/a/b"⟩, none, some "top"⟩ := by
  refine ⟨?_, ?_, ?_, ?_, ?_, by decide, by decide, by decide, by decide⟩
  · intro base rhs hfalsy
    rw [relativeRaw_path, if_pos hfalsy]
  · intro base rhs p hp hhead
    have hpne : p ≠ "" := by
      intro hc
      rw [hc] at hhead
      exact absurd hhead (by decide)
    rw [relativeRaw_path, hp, if_neg (by simp [pyFalsy, hpne])]
    simp only [Option.getD_some]
    rw [if_pos hhead]
  · intro base rhs p hp hpne hhead
    rw [relativeRaw_path, hp, if_neg (by simp [pyFalsy, hpne])]
    simp only [Option.getD_some]
    rw [if_neg hhead]
  · intro base rhs
    exact ⟨relativeRaw_query base rhs, relativeRaw_fragment base rhs⟩
  · intro base rel raw hparse
    rcases parseUrl_path_shape rel raw hparse with h0 | h0 | ⟨p, hp, hphead⟩
    · left
      rw [relativeRaw_path, h0, if_pos (by rfl)]
    · left
      rw [relativeRaw_path, h0, if_pos (by rfl)]
    · right
      refine ⟨p, hp, hphead, ?_⟩
      have hpne : p ≠ "" := by
        intro hc
        rw [hc] at hphead
        exact absurd hphead (by decide)
      rw [relativeRaw_path, hp, if_neg (by simp [pyFalsy, hpne])]
      simp only [Option.getD_some]
      rw [if_pos hphead]

/-- Witness for the amended C3 at concrete parser outputs: the parsed form
of `c` (a host and no path) makes resolution reuse the base path, the
parsed form of `/c` is taken verbatim, and even the scheme-prefixed
`http:z` parses with the slash-prepended path `/z`, so its resolution also
goes through the verbatim branch. -/
theorem c3_amended_witness :
    (exBase.relativeRaw ⟨none, some "c", none, none, none⟩).uri.path = exBase.uri.path ∧
    (exBase.relativeRaw ⟨none, none, some "/c", none, none⟩).uri.path = "/c" ∧
    ((exBase.relativeRaw ⟨some "http", none, some "/z", none, none⟩).uri.path =
        exBase.uri.path ∨
      ∃ p, (⟨some "http", none, some "/z", none, none⟩ : RawUrl).path = some p ∧
        p.data.head? = some '/' ∧
        (exBase.relativeRaw ⟨some "http", none, some "/z", none, none⟩).uri.path = p) :=
  ⟨c3_amended.1 exBase ⟨none, some "c", none, none, none⟩ (by decide),
   c3_amended.2.1 exBase ⟨none, none, some "/c", none, none⟩ "/c" rfl (by decide),
   c3_amended.2.2.2.2.1 exBase "http:z" ⟨some "http", none, some "/z", none, none⟩ (by decide)⟩

/-- Ordered association-list upsert keyed through `keyf`: replace in place
when the key is already present (keeping its position, Python `dict`
assignment), append otherwise. -/
def upsertBy (keyf : String → String) (l : List (String × String)) (k v : String) :
    List (String × String) :=
  if l.any (fun pr => keyf pr.1 == keyf k) then
    l.map (fun pr => if keyf pr.1 == keyf k then (k, v) else pr)
  else l ++ [(k, v)]

/-- `requests.structures.CaseInsensitiveDict`: the ordered `_store`, one
entry per lower-cased key, holding the actual-cased key and the value. -/
structure CID where
  store : List (String × String)
deriving DecidableEq, Repr

/-- `__setitem__`: `self._store[key.lower()] = (key, value)`. -/
def CID.setItem (d : CID) (key value : String) : CID :=
  ⟨upsertBy pyLower d.store key value⟩

/-- Construction from a sequence of items (`__init__` via `update`). -/
def CID.ofItems (ps : List (String × String)) : CID :=
  ps.foldl (fun d pr => d.setItem pr.1 pr.2) ⟨[]⟩

/-- `__getitem__` by lower-cased key; `none` models `KeyError`. -/
def CID.get? (d : CID) (key : String) : Option String :=
  (d.store.find? (fun pr => pyLower pr.1 == pyLower key)).map (fun pr => pr.2)

/-- `items()`: actual-cased keys with their values, in store order. -/
def CID.items (d : CID) : List (String × String) :=
  d.store

/-- Invariant holding for every Python `CaseInsensitiveDict`: one entry per
lower-cased key. -/
def CID.wf (d : CID) : Prop :=
  (d.store.map (fun pr => pyLower pr.1)).Nodup

instance (d : CID) : Decidable d.wf :=
  inferInstanceAs (Decidable (List.Nodup _))

/-- `__eq__`: `dict(self.lower_items()) == dict(other.lower_items())`,
expressed for well-formed stores as agreement of lower-cased lookups. -/
def CID.equiv (a b : CID) : Bool :=
  a.store.all (fun pr => b.get? pr.1 == some pr.2) &&
  b.store.all (fun pr => a.get? pr.1 == some pr.2)

/-- Python `{name: value}` dict comprehension over a row sequence, keeping
first positions and last values on exact-key duplicates. -/
def pyDictOfList (ps : List (String × String)) : List (String × String) :=
  ps.foldl (fun l pr => upsertBy id l pr.1 pr.2) []

/-- Cached resource resulting from an HTTP GET (`class Resource`). -/
structure Resource where
  status : Int
  headers : CID
  data : List UInt8
deriving DecidableEq, Repr

/-- Row of the `url` table: `id, host, path, status, data`. -/
structure UrlRow where
  id : Nat
  host : String
  path : String
  status : Int
  data : List UInt8
deriving DecidableEq, Repr

/-- Row of the `header` table: `id, url_id, name, value`. -/
structure HeaderRow where
  id : Nat
  urlId : Nat
  name : String
  value : String
deriving DecidableEq, Repr

/-- State of the SQLite store (`class Database`): the two tables with rows
in rowid (insertion) order. -/
structure Database where
  urls : List UrlRow
  headers : List HeaderRow
deriving DecidableEq, Repr

/-- The empty store as initialized by `create` on a fresh path. -/
def Database.empty : Database :=
  ⟨[], []⟩

/-- `_get_headers`: collect the header rows of one url row (in rowid order)
into a Python dict comprehension, then into a `CaseInsensitiveDict`. -/
def Database.getHeaders (db : Database) (urlId : Nat) : CID :=
  CID.ofItems (pyDictOfList
    ((db.headers.filter (fun r => r.urlId == urlId)).map (fun r => (r.name, r.value))))

/-- `Database.get`: point lookup by URI; `fetchone` returns the first
matching row in rowid order, `none` means never fetched. -/
def Database.get (db : Database) (uri : Uri) : Option Resource :=
  (db.urls.find? (fun r => r.host == uri.host && r.path == uri.path)).map
    (fun row => { status := row.status, headers := db.getHeaders row.id, data := row.data })

/-- `Database.insert`: append one `url` row under a fresh rowid, plus one
`header` row per item of the resource's header set. -/
def Database.insert (db : Database) (url : Url) (resource : Resource) : Database :=
  { urls := db.urls ++
      [⟨db.urls.length + 1, url.uri.host, url.uri.path, resource.status, resource.data⟩]
    headers := db.headers ++
      resource.headers.items.enum.map
        (fun pr => ⟨db.headers.length + 1 + pr.1, db.urls.length + 1, pr.2.1, pr.2.2⟩) }

/-- Store invariant maintained by `create`/`insert`: header rows reference
existing url rows (rowids are `1..len`). -/
def Database.wf (db : Database) : Prop :=
  ∀ hr ∈ db.headers, hr.urlId ≤ db.urls.length

/-- `HTTPCache.fetch`: return the stored resource on a hit; on a miss call
the transport collaborator (`fetch_uncached`, which carries the fixed
User-Agent request header inside the black box), persist the result via
`insert`, and return it. The last component counts the live transport GETs
performed by the call. -/
def fetch (transport : Url → Resource) (db : Database) (url : Url) :
    Resource × Database × Nat :=
  match db.get url.uri with
  | some hit => (hit, db, 0)
  | none =>
    (transport url, db.insert url (transport url), 1)

instance (db : Database) : Decidable db.wf :=
  inferInstanceAs (Decidable (∀ hr ∈ db.headers, hr.urlId ≤ db.urls.length))

theorem foldl_upsertBy_fresh (keyf : String → String) :
    ∀ (ps acc : List (String × String)),
      ((acc.map fun pr => keyf pr.1) ++ ps.map fun pr => keyf pr.1).Nodup →
      ps.foldl (fun l pr => upsertBy keyf l pr.1 pr.2) acc = acc ++ ps := by
  intro ps
  induction ps with
  | nil =>
    intro acc _
    simp
  | cons hd tl ih =>
    intro acc hnd
    simp only [List.map_cons] at hnd
    have hfresh : acc.any (fun pr => keyf pr.1 == keyf hd.1) = false := by
      rw [List.any_eq_false]
      intro pr hpr
      simp only [beq_iff_eq]
      intro heq
      obtain ⟨-, -, hdisj⟩ := List.nodup_append.mp hnd
      exact hdisj (List.mem_map_of_mem _ hpr) (heq ▸ List.mem_cons_self _ _)
    rw [List.foldl_cons]
    have hstep : upsertBy keyf acc hd.1 hd.2 = acc ++ [hd] := by
      rw [upsertBy, if_neg (by simp [hfresh])]
    rw [hstep, ih (acc ++ [hd]) (by simpa using hnd)]
    simp

theorem pyDictOfList_self (ps : List (String × String))
    (h : (ps.map fun pr => pr.1).Nodup) : pyDictOfList ps = ps := by
  have := foldl_upsertBy_fresh id ps [] (by simpa using h)
  simpa [pyDictOfList] using this

theorem cid_foldl_eq (ps : List (String × String)) (acc : List (String × String)) :
    ps.foldl (fun d pr => CID.setItem d pr.1 pr.2) ⟨acc⟩ =
      ⟨ps.foldl (fun l pr => upsertBy pyLower l pr.1 pr.2) acc⟩ := by
  induction ps generalizing acc with
  | nil => rfl
  | cons hd tl ih =>
    rw [List.foldl_cons, List.foldl_cons]
    exact ih _

theorem CID.ofItems_self (d : CID) (h : d.wf) : CID.ofItems d.store = d := by
  obtain ⟨store⟩ := d
  rw [CID.ofItems, cid_foldl_eq,
    foldl_upsertBy_fresh pyLower store [] (by simpa [CID.wf] using h)]
  rw [List.nil_append]

theorem find?_lower_self :
    ∀ (store : List (String × String)),
      (store.map fun pr => pyLower pr.1).Nodup →
      ∀ pr ∈ store, store.find? (fun q => pyLower q.1 == pyLower pr.1) = some pr := by
  intro store
  induction store with
  | nil =>
    intro _ pr hpr
    simp at hpr
  | cons hd tl ih =>
    intro hnd pr hpr
    simp only [List.map_cons, List.nodup_cons] at hnd
    rcases List.mem_cons.mp hpr with heq | htl
    · subst heq
      rw [List.find?_cons_of_pos _ (by simp)]
    · have hb : (pyLower hd.1 == pyLower pr.1) = false := by
        simp only [beq_eq_false_iff_ne, ne_eq]
        intro heq
        exact hnd.1 (heq ▸ List.mem_map_of_mem _ htl)
      rw [List.find?_cons]
      simp only [hb]
      exact ih hnd.2 pr htl

theorem CID.get?_mem_of_wf (d : CID) (h : d.wf) :
    ∀ pr ∈ d.store, d.get? pr.1 = some pr.2 := by
  intro pr hpr
  rw [CID.get?, find?_lower_self d.store h pr hpr]
  rfl

theorem CID.equiv_refl_of_wf (d : CID) (h : d.wf) : CID.equiv d d = true := by
  rw [CID.equiv, Bool.and_eq_true]
  constructor <;>
  · rw [List.all_eq_true]
    intro pr hpr
    rw [CID.get?_mem_of_wf d h pr hpr]
    exact beq_self_eq_true _

/-- Looking up the URI of a freshly inserted record on a store with no prior
record for that URI returns exactly the inserted resource. -/
theorem Database.get_insert_self (db : Database) (u : Url) (r : Resource)
    (hdb : db.wf) (hwfh : r.headers.wf) (hmiss : db.get u.uri = none) :
    (db.insert u r).get u.uri = some r := by
  have hfind : db.urls.find? (fun row => row.host == u.uri.host && row.path == u.uri.path)
      = none := by
    rw [Database.get] at hmiss
    exact Option.map_eq_none'.mp hmiss
  have hkeys : (r.headers.items.map fun pr => pr.1).Nodup := by
    refine List.Nodup.of_map pyLower ?_
    rw [List.map_map]
    exact hwfh
  have hget : (db.insert u r).getHeaders (db.urls.length + 1) = r.headers := by
    have hhdrs : (db.insert u r).headers = db.headers ++
        r.headers.items.enum.map (fun pr =>
          (⟨db.headers.length + 1 + pr.1, db.urls.length + 1, pr.2.1, pr.2.2⟩ : HeaderRow)) :=
      rfl
    rw [Database.getHeaders, hhdrs, List.filter_append]
    have h1 : db.headers.filter (fun row => row.urlId == db.urls.length + 1) = [] := by
      rw [List.filter_eq_nil_iff]
      intro a ha
      have := hdb a ha
      simp only [beq_iff_eq]
      omega
    have h2 : (r.headers.items.enum.map (fun pr =>
        (⟨db.headers.length + 1 + pr.1, db.urls.length + 1, pr.2.1, pr.2.2⟩ : HeaderRow))).filter
          (fun row => row.urlId == db.urls.length + 1) =
        r.headers.items.enum.map (fun pr =>
          ⟨db.headers.length + 1 + pr.1, db.urls.length + 1, pr.2.1, pr.2.2⟩) := by
      rw [List.filter_eq_self]
      intro a ha
      obtain ⟨pr, hpr, hpa⟩ := List.mem_map.mp ha
      rw [← hpa]
      simp
    rw [h1, h2, List.nil_append, List.map_map]
    have h3 : ((fun row : HeaderRow => (row.name, row.value)) ∘
        (fun pr : Nat × (String × String) =>
          (⟨db.headers.length + 1 + pr.1, db.urls.length + 1, pr.2.1, pr.2.2⟩ : HeaderRow))) =
        Prod.snd := by
      funext pr
      rfl
    rw [h3, List.enum_map_snd, pyDictOfList_self _ hkeys, CID.items]
    exact CID.ofItems_self _ hwfh
  have hurls : (db.insert u r).urls = db.urls ++
      [⟨db.urls.length + 1, u.uri.host, u.uri.path, r.status, r.data⟩] := rfl
  rw [Database.get, hurls, List.find?_append, hfind, Option.none_or,
    List.find?_cons_of_pos _ (by simp), Option.map_some']
  rw [show ((⟨db.urls.length + 1, u.uri.host, u.uri.path, r.status, r.data⟩ : UrlRow)).id
    = db.urls.length + 1 from rfl, hget]

/-- C2: on a store with no prior record for `u.uri`, `insert(u, r)` followed
by `get(u.uri)` returns exactly the inserted resource, hence a resource with
equal status, body, and case-insensitively equal header set; duplicate
header names differing only in case collapse to one logical entry. -/
theorem c2_insert_get_roundtrip (db : Database) (u : Url) (r : Resource)
    (hdb : db.wf) (hwfh : r.headers.wf) (hmiss : db.get u.uri = none) :
    (db.insert u r).get u.uri = some r ∧
    (∃ r2, (db.insert u r).get u.uri = some r2 ∧ r2.status = r.status ∧
      r2.data = r.data ∧ CID.equiv r2.headers r.headers = true) ∧
    CID.ofItems [("Content-Type", "a"), ("content-type", "b")] =
      ⟨[("content-type", "b")]⟩ := by
  have hmain := Database.get_insert_self db u r hdb hwfh hmiss
  exact ⟨hmain, ⟨r, hmain, rfl, rfl, CID.equiv_refl_of_wf r.headers hwfh⟩, by decide⟩

/-- Witness for C2 on the empty store with a concrete URL and resource. -/
theorem c2_witness :
    ((Database.empty.insert ⟨"http", ⟨"example.com", "/p"⟩, none, none⟩
        ⟨200, ⟨[("Content-Type", "text/html")]⟩, []⟩).get ⟨"example.com", "/p"⟩ =
      some ⟨200, ⟨[("Content-Type", "text/html")]⟩, []⟩) ∧
    (∃ r2, (Database.empty.insert ⟨"http", ⟨"example.com", "/p"⟩, none, none⟩
        ⟨200, ⟨[("Content-Type", "text/html")]⟩, []⟩).get ⟨"example.com", "/p"⟩ = some r2 ∧
      r2.status = 200 ∧ r2.data = [] ∧
      CID.equiv r2.headers ⟨[("Content-Type", "text/html")]⟩ = true) ∧
    CID.ofItems [("Content-Type", "a"), ("content-type", "b")] =
      ⟨[("content-type", "b")]⟩ :=
  c2_insert_get_roundtrip Database.empty ⟨"http", ⟨"example.com", "/p"⟩, none, none⟩
    ⟨200, ⟨[("Content-Type", "text/html")]⟩, []⟩ (by decide) (by decide) (by decide)

/-- C1: two `fetch` calls on URLs sharing one URI but with different query
strings perform exactly one live transport GET in total: the first call
misses, GETs and inserts; the second call hits the store (the lookup uses
only `url.uri`) and returns the resource cached by the first call, with the
store unchanged. -/
theorem c1_fetch_once_per_uri (transport : Url → Resource) (db : Database)
    (u1 u2 : Url) (hdb : db.wf) (huri : u1.uri = u2.uri) (_hq : u1.query ≠ u2.query)
    (hmiss : db.get u1.uri = none) (hwfh : (transport u1).headers.wf) :
    fetch transport db u1 = (transport u1, db.insert u1 (transport u1), 1) ∧
    fetch transport (db.insert u1 (transport u1)) u2 =
      (transport u1, db.insert u1 (transport u1), 0) := by
  constructor
  · rw [fetch, hmiss]
  · rw [fetch, ← huri,
      Database.get_insert_self db u1 (transport u1) hdb hwfh hmiss]

/-- Witness for C1: same URI `/search` with queries `q=a` and `q=b` on the
empty store. -/
theorem c1_witness :
    fetch (fun _ => ⟨200, ⟨[("Content-Type", "text/html")]⟩, []⟩) Database.empty
        ⟨"http", ⟨"example.com", "/search"⟩, some "q=a", none⟩ =
      (⟨200, ⟨[("Content-Type", "text/html")]⟩, []⟩,
        Database.empty.insert ⟨"http", ⟨"example.com", "/search"⟩, some "q=a", none⟩
          ⟨200, ⟨[("Content-Type", "text/html")]⟩, []⟩, 1) ∧
    fetch (fun _ => ⟨200, ⟨[("Content-Type", "text/html")]⟩, []⟩)
        (Database.empty.insert ⟨"http", ⟨"example.com", "/search"⟩, some "q=a", none⟩
          ⟨200, ⟨[("Content-Type", "text/html")]⟩, []⟩)
        ⟨"http", ⟨"example.com", "/search"⟩, some "q=b", none⟩ =
      (⟨200, ⟨[("Content-Type", "text/html")]⟩, []⟩,
        Database.empty.insert ⟨"http", ⟨"example.com", "/search"⟩, some "q=a", none⟩
          ⟨200, ⟨[("Content-Type", "text/html")]⟩, []⟩, 0) :=
  c1_fetch_once_per_uri (fun _ => ⟨200, ⟨[("Content-Type", "text/html")]⟩, []⟩)
    Database.empty ⟨"http", ⟨"example.com", "/search"⟩, some "q=a", none⟩
    ⟨"http", ⟨"example.com", "/search"⟩, some "q=b", none⟩
    (by decide) (by decide) (by decide) (by decide) (by decide)

/-- Whitespace characters removed by Python `str.strip()`. -/
def pySpace (c : Char) : Bool :=
  c == ' ' || c == '\t' || c == '\n' || c == '\r' || c == '\x0b' || c == '\x0c'

/-- Python `str.strip()`. -/
def pyStrip (cs : List Char) : List Char :=
  ((cs.dropWhile pySpace).reverse.dropWhile pySpace).reverse

/-- `split_list`: split on the separator (always the one-character `;` at
the call sites), trim whitespace, discard empty entries, return the
`frozenset`. -/
def split_list (text : String) (sep : Char) : Finset String :=
  ((((splitChar sep text.data).map pyStrip).filter (fun l => l ≠ [])).map String.mk).toFinset

/-- `extract_links`, with the BeautifulSoup anchor extraction as an explicit
collaborator `hrefsOf` yielding the `href` strings of the document's `a`
tags: when the `Content-Type` header's token set contains `text/html`,
resolve each href against `base` and return the set; otherwise return the
empty set. `none` models the exception paths (missing `Content-Type` key,
a failing embedded `parse_url`). -/
def extract_links (hrefsOf : List UInt8 → List String) (base : Url) (r : Resource) :
    Option (Finset Url) :=
  match r.headers.get? "Content-Type" with
  | none => none
  | some ct =>
    if "text/html" ∈ split_list ct ';' then
      ((hrefsOf r.data).mapM base.relative).map List.toFinset
    else some ∅

/-- C10: link extraction consults only the `Content-Type` header's
semicolon-separated token set (tokens trimmed of whitespace, empties
discarded): whenever the token set does not contain `text/html`, extraction
returns the empty set, so links are only ever yielded when it does. -/
theorem c10_extract_links_html_only (hrefsOf : List UInt8 → List String) (base : Url)
    (r : Resource) (ct : String) (hct : r.headers.get? "Content-Type" = some ct)
    (hnot : "text/html" ∉ split_list ct ';') :
    extract_links hrefsOf base r = some ∅ ∧
    (∀ links, extract_links hrefsOf base r = some links → links = ∅) := by
  have hopen : extract_links hrefsOf base r =
      if "text/html" ∈ split_list ct ';' then
        ((hrefsOf r.data).mapM base.relative).map List.toFinset
      else some ∅ := by
    rw [extract_links, hct]
  have h : extract_links hrefsOf base r = some ∅ := by
    rw [hopen, if_neg hnot]
  refine ⟨h, fun links hl => ?_⟩
  rw [h, Option.some.injEq] at hl
  exact hl.symm

/-- Witness for C10: a `text/plain; charset=utf-8` resource yields no links
even though its body carries an anchor. -/
theorem c10_witness :
    extract_links (fun _ => ["/about"]) exRoot
        ⟨200, ⟨[("Content-Type", "text/plain; charset=utf-8")]⟩, []⟩ = some ∅ ∧
    (∀ links, extract_links (fun _ => ["/about"]) exRoot
        ⟨200, ⟨[("Content-Type", "text/plain; charset=utf-8")]⟩, []⟩ = some links →
      links = ∅) :=
  c10_extract_links_html_only (fun _ => ["/about"]) exRoot
    ⟨200, ⟨[("Content-Type", "text/plain; charset=utf-8")]⟩, []⟩
    "text/plain; charset=utf-8" (by decide) (by decide)

/-- One URL's contribution to a crawl round of `cmd_scrape`: fetch it (via
the realized fetch results `fetchRes`), extract links with the crawl's ROOT
as the resolution base — exactly as the source passes `root`, not the page
being fetched, to `extract_links` — and keep the links passing the policy.
An extraction failure, which aborts the Python run, contributes the empty
set here; the crawl theorems take graphs on which extraction succeeds. -/
def crawlLinks (root : Url) (fetchRes : Url → Resource)
    (hrefsOf : List UInt8 → List String) (u : Url) : Finset Url :=
  match extract_links hrefsOf root (fetchRes u) with
  | none => ∅
  | some links => links.filter (fun l => should_scrape root l = true)

/-- State of the `cmd_scrape` loop: `visited` and the current frontier
(`unvisited`). -/
structure CrawlState where
  visited : Finset Url
  frontier : Finset Url
deriving DecidableEq

/-- One iteration of the `while unvisited:` loop at the level of sets: every
frontier URL is fetched (the sorted processing order is invisible to the
resulting sets) and added to `visited`; the links collected across the
round, minus the updated visited set, become the next frontier. -/
def crawlStep (linksOf : Url → Finset Url) (s : CrawlState) : CrawlState :=
  if s.frontier = ∅ then s
  else
    { visited := s.visited ∪ s.frontier
      frontier := (s.frontier.biUnion linksOf) \ (s.visited ∪ s.frontier) }

/-- `n` iterations of the loop from the initial state `visited = {}`,
`unvisited = {root}`. -/
def crawlN (linksOf : Url → Finset Url) (root : Url) : Nat → CrawlState
  | 0 => ⟨∅, {root}⟩
  | n + 1 => crawlStep linksOf (crawlN linksOf root n)

/-- Reachability from the root through the per-URL link sets: the URLs the
crawl is meant to visit. -/
inductive Reaches (linksOf : Url → Finset Url) (root : Url) : Url → Prop where
  | root : Reaches linksOf root root
  | step {u v : Url} : Reaches linksOf root u → v ∈ linksOf u → Reaches linksOf root v

/-- C6: in every crawl round each page's contribution resolves the extracted
links against the crawl's root — the contribution of a page `u` equals what
the root page itself would contribute if it served the same resource, and
the next frontier is assembled from exactly these root-based contributions.
The base genuinely matters: resolving `#top` against the deep page
`http://example.com/a/b` keeps path `/a/b`, while against the root
`http://example.com/` it gives path `/`. -/
theorem c6_links_resolved_against_root (root : Url) (fetchRes : Url → Resource)
    (hrefsOf : List UInt8 → List String) :
    (∀ u : Url, crawlLinks root fetchRes hrefsOf u =
        crawlLinks root (fun _ => fetchRes u) hrefsOf root) ∧
    (∀ s : CrawlState, s.frontier ≠ ∅ →
        crawlStep (crawlLinks root fetchRes hrefsOf) s =
          ⟨s.visited ∪ s.frontier,
            (s.frontier.biUnion (crawlLinks root fetchRes hrefsOf)) \
              (s.visited ∪ s.frontier)⟩) ∧
    Url.relative exBase "#top" = some ⟨"http", ⟨"example.com", "/a/b"⟩, none, some "top"⟩ ∧
    Url.relative exRoot "#top" = some ⟨"http", ⟨"example.com", "/"⟩, none, some "top"⟩ := by
  refine ⟨fun u => rfl, fun s hs => ?_, by decide, by decide⟩
  rw [crawlStep, if_neg hs]

/-- Witness for C6's round equation at a concrete one-element frontier. -/
theorem c6_witness :
    crawlStep (crawlLinks exRoot (fun _ => ⟨200, ⟨[("Content-Type", "text/plain")]⟩, []⟩)
        (fun _ => [])) ⟨∅, {exRoot}⟩ =
      ⟨∅ ∪ {exRoot},
        (({exRoot} : Finset Url).biUnion
            (crawlLinks exRoot (fun _ => ⟨200, ⟨[("Content-Type", "text/plain")]⟩, []⟩)
              (fun _ => []))) \ (∅ ∪ {exRoot})⟩ :=
  (c6_links_resolved_against_root exRoot
      (fun _ => ⟨200, ⟨[("Content-Type", "text/plain")]⟩, []⟩) (fun _ => [])).2.1
    ⟨∅, {exRoot}⟩ (by decide)

theorem crawlStep_empty (linksOf : Url → Finset Url) (s : CrawlState)
    (h : s.frontier = ∅) : crawlStep linksOf s = s := by
  rw [crawlStep, if_pos h]

theorem crawlN_succ (linksOf : Url → Finset Url) (root : Url) (n : Nat) :
    crawlN linksOf root (n + 1) = crawlStep linksOf (crawlN linksOf root n) := rfl

theorem crawl_visited_mono (linksOf : Url → Finset Url) (root : Url) (k : Nat) :
    (crawlN linksOf root k).visited ⊆ (crawlN linksOf root (k + 1)).visited := by
  rw [crawlN_succ, crawlStep]
  by_cases h : (crawlN linksOf root k).frontier = ∅
  · rw [if_pos h]
  · rw [if_neg h]
    exact Finset.subset_union_left

theorem crawl_subset_bound (linksOf : Url → Finset Url) (root : Url) (B : Finset Url)
    (hroot : root ∈ B) (hclosed : ∀ u ∈ B, linksOf u ⊆ B) :
    ∀ k, (crawlN linksOf root k).visited ∪ (crawlN linksOf root k).frontier ⊆ B := by
  intro k
  induction k with
  | zero =>
    intro x hx
    rcases Finset.mem_union.mp hx with h | h
    · exact absurd h (Finset.not_mem_empty x)
    · rw [Finset.mem_singleton.mp h]
      exact hroot
  | succ n ih =>
    rw [crawlN_succ, crawlStep]
    by_cases h : (crawlN linksOf root n).frontier = ∅
    · rw [if_pos h]
      exact ih
    · rw [if_neg h]
      intro x hx
      rcases Finset.mem_union.mp hx with hv | hf
      · exact ih hv
      · have hx2 := (Finset.mem_sdiff.mp hf).1
        obtain ⟨u, hu, hxu⟩ := Finset.mem_biUnion.mp hx2
        exact hclosed u (ih (Finset.mem_union_right _ hu)) hxu

theorem crawl_frontier_disj (linksOf : Url → Finset Url) (root : Url) :
    ∀ k, ∀ x ∈ (crawlN linksOf root k).frontier, x ∉ (crawlN linksOf root k).visited := by
  intro k
  induction k with
  | zero =>
    intro x _ hxv
    exact Finset.not_mem_empty x hxv
  | succ n ih =>
    rw [crawlN_succ, crawlStep]
    by_cases h : (crawlN linksOf root n).frontier = ∅
    · rw [if_pos h]
      exact ih
    · rw [if_neg h]
      intro x hx
      exact (Finset.mem_sdiff.mp hx).2

theorem crawl_closed (linksOf : Url → Finset Url) (root : Url) :
    ∀ k, ∀ u ∈ (crawlN linksOf root k).visited,
      linksOf u ⊆ (crawlN linksOf root k).visited ∪ (crawlN linksOf root k).frontier := by
  intro k
  induction k with
  | zero =>
    intro u hu
    exact absurd hu (Finset.not_mem_empty u)
  | succ n ih =>
    rw [crawlN_succ, crawlStep]
    by_cases h : (crawlN linksOf root n).frontier = ∅
    · rw [if_pos h]
      exact ih
    · rw [if_neg h]
      intro u hu x hx
      rcases Finset.mem_union.mp hu with huv | huf
      · exact Finset.mem_union_left _ (ih u huv hx)
      · have hxb : x ∈ (crawlN linksOf root n).frontier.biUnion linksOf :=
          Finset.mem_biUnion.mpr ⟨u, huf, hx⟩
        by_cases hxv : x ∈ (crawlN linksOf root n).visited ∪ (crawlN linksOf root n).frontier
        · exact Finset.mem_union_left _ hxv
        · exact Finset.mem_union_right _ (Finset.mem_sdiff.mpr ⟨hxb, hxv⟩)

theorem crawl_root_mem (linksOf : Url → Finset Url) (root : Url) :
    ∀ k, root ∈ (crawlN linksOf root k).visited ∪ (crawlN linksOf root k).frontier := by
  intro k
  induction k with
  | zero => exact Finset.mem_union_right _ (Finset.mem_singleton_self root)
  | succ n ih =>
    rw [crawlN_succ, crawlStep]
    by_cases h : (crawlN linksOf root n).frontier = ∅
    · rw [if_pos h]
      exact ih
    · rw [if_neg h]
      exact Finset.mem_union_left _ ih

theorem crawl_sound (linksOf : Url → Finset Url) (root : Url) :
    ∀ k, ∀ u ∈ (crawlN linksOf root k).visited ∪ (crawlN linksOf root k).frontier,
      Reaches linksOf root u := by
  intro k
  induction k with
  | zero =>
    intro u hu
    rcases Finset.mem_union.mp hu with h | h
    · exact absurd h (Finset.not_mem_empty u)
    · rw [Finset.mem_singleton.mp h]
      exact Reaches.root
  | succ n ih =>
    rw [crawlN_succ, crawlStep]
    by_cases h : (crawlN linksOf root n).frontier = ∅
    · rw [if_pos h]
      exact ih
    · rw [if_neg h]
      intro u hu
      rcases Finset.mem_union.mp hu with huv | huf
      · exact ih u huv
      · obtain ⟨w, hw, hu2⟩ := Finset.mem_biUnion.mp (Finset.mem_sdiff.mp huf).1
        exact Reaches.step (ih w (Finset.mem_union_right _ hw)) hu2

theorem crawl_growth (linksOf : Url → Finset Url) (root : Url) (k : Nat)
    (h : (crawlN linksOf root k).frontier ≠ ∅) :
    (crawlN linksOf root k).visited.card < (crawlN linksOf root (k + 1)).visited.card := by
  rw [crawlN_succ, crawlStep, if_neg h]
  have hdisj : Disjoint (crawlN linksOf root k).visited (crawlN linksOf root k).frontier := by
    rw [Finset.disjoint_right]
    intro x hxf
    exact crawl_frontier_disj linksOf root k x hxf
  have hcard : ((crawlN linksOf root k).visited ∪ (crawlN linksOf root k).frontier).card =
      (crawlN linksOf root k).visited.card + (crawlN linksOf root k).frontier.card :=
    Finset.card_union_of_disjoint hdisj
  have hpos : 0 < (crawlN linksOf root k).frontier.card :=
    Finset.card_pos.mpr (Finset.nonempty_iff_ne_empty.mpr h)
  show (crawlN linksOf root k).visited.card <
    ((crawlN linksOf root k).visited ∪ (crawlN linksOf root k).frontier).card
  omega

theorem crawl_absorb (linksOf : Url → Finset Url) (root : Url) (k : Nat)
    (h : (crawlN linksOf root k).frontier = ∅) :
    ∀ m, crawlN linksOf root (k + m) = crawlN linksOf root k := by
  intro m
  induction m with
  | zero => rfl
  | succ j ih =>
    have heq : k + (j + 1) = (k + j) + 1 := by omega
    rw [heq, crawlN_succ, ih, crawlStep_empty linksOf _ h]

theorem crawl_card_ge (linksOf : Url → Finset Url) (root : Url) :
    ∀ k, (∀ j, j < k → (crawlN linksOf root j).frontier ≠ ∅) →
      k ≤ (crawlN linksOf root k).visited.card := by
  intro k
  induction k with
  | zero => intro _; exact Nat.zero_le _
  | succ n ih =>
    intro hall
    have h1 := ih (fun j hj => hall j (Nat.lt_succ_of_lt hj))
    have h2 := crawl_growth linksOf root n (hall n (Nat.lt_succ_self n))
    omega

/-- Core of C4 over an abstract per-URL link function: with a finite closed
superset of the reachable URLs, the loop reaches an empty frontier, after
which `visited` is exactly the reachable set; `visited` only grows. -/
theorem crawl_terminates_reaches (linksOf : Url → Finset Url) (root : Url) (B : Finset Url)
    (hroot : root ∈ B) (hclosed : ∀ u ∈ B, linksOf u ⊆ B) :
    ∃ N, (crawlN linksOf root N).frontier = ∅ ∧
      (∀ u, u ∈ (crawlN linksOf root N).visited ↔ Reaches linksOf root u) ∧
      (∀ k, (crawlN linksOf root k).visited ⊆ (crawlN linksOf root (k + 1)).visited) := by
  have hterm : ∃ k0, k0 ≤ B.card ∧ (crawlN linksOf root k0).frontier = ∅ := by
    by_contra hcon
    push_neg at hcon
    have hall : ∀ j, j < B.card + 1 → (crawlN linksOf root j).frontier ≠ ∅ :=
      fun j hj => hcon j (by omega)
    have h1 := crawl_card_ge linksOf root (B.card + 1) hall
    have h2 : (crawlN linksOf root (B.card + 1)).visited.card ≤ B.card := by
      apply Finset.card_le_card
      intro x hx
      exact crawl_subset_bound linksOf root B hroot hclosed (B.card + 1)
        (Finset.mem_union_left _ hx)
    omega
  obtain ⟨k0, -, hk0⟩ := hterm
  refine ⟨k0, hk0, ?_, fun k => crawl_visited_mono linksOf root k⟩
  intro u
  constructor
  · intro hu
    exact crawl_sound linksOf root k0 u (Finset.mem_union_left _ hu)
  · intro hr
    induction hr with
    | root =>
      rcases Finset.mem_union.mp (crawl_root_mem linksOf root k0) with h | h
      · exact h
      · rw [hk0] at h
        exact absurd h (Finset.not_mem_empty _)
    | step hru hlink ih =>
      rcases Finset.mem_union.mp (crawl_closed linksOf root k0 _ ih hlink) with h | h
      · exact h
      · rw [hk0] at h
        exact absurd h (Finset.not_mem_empty _)

/-- C4: over any synthetic link graph whose per-URL link sets (under the
implemented resolution and scope policy) stay inside a finite closed set of
URLs containing the root, and on which extraction succeeds, the crawl loop
reaches an empty frontier; at that point `visited` is exactly the set of
URLs reachable from the root, and `visited` only grows from round to
round. -/
theorem c4_crawl_terminates (root : Url) (fetchRes : Url → Resource)
    (hrefsOf : List UInt8 → List String) (B : Finset Url) (hroot : root ∈ B)
    (hclosed : ∀ u ∈ B, crawlLinks root fetchRes hrefsOf u ⊆ B)
    (_hok : ∀ u ∈ B, (extract_links hrefsOf root (fetchRes u)).isSome = true) :
    ∃ N, (crawlN (crawlLinks root fetchRes hrefsOf) root N).frontier = ∅ ∧
      (∀ u, u ∈ (crawlN (crawlLinks root fetchRes hrefsOf) root N).visited ↔
        Reaches (crawlLinks root fetchRes hrefsOf) root u) ∧
      (∀ k, (crawlN (crawlLinks root fetchRes hrefsOf) root k).visited ⊆
        (crawlN (crawlLinks root fetchRes hrefsOf) root (k + 1)).visited) :=
  crawl_terminates_reaches (crawlLinks root fetchRes hrefsOf) root B hroot hclosed

/-- Sample synthetic site: the root page is HTML with one link `/about`;
every other page is plain text. -/
def exFetchRes : Url → Resource := fun u =>
  if u.uri.path = "/" then ⟨200, ⟨[("Content-Type", "text/html")]⟩, [65]⟩
  else ⟨200, ⟨[("Content-Type", "text/plain")]⟩, []⟩

/-- Anchor extraction for the sample site: the root document carries one
href. -/
def exHrefsOf : List UInt8 → List String := fun d =>
  if d = [65] then ["/about"] else []

/-- Sample URL `http://example.com/about` in parsed form. -/
def exAbout : Url := ⟨"http", ⟨"example.com", "/about"⟩, none, none⟩

/-- Witness for C4 on the concrete two-page site. -/
theorem c4_witness :
    ∃ N, (crawlN (crawlLinks exRoot exFetchRes exHrefsOf) exRoot N).frontier = ∅ ∧
      (∀ u, u ∈ (crawlN (crawlLinks exRoot exFetchRes exHrefsOf) exRoot N).visited ↔
        Reaches (crawlLinks exRoot exFetchRes exHrefsOf) exRoot u) ∧
      (∀ k, (crawlN (crawlLinks exRoot exFetchRes exHrefsOf) exRoot k).visited ⊆
        (crawlN (crawlLinks exRoot exFetchRes exHrefsOf) exRoot (k + 1)).visited) :=
  c4_crawl_terminates exRoot exFetchRes exHrefsOf {exRoot, exAbout}
    (by decide) (by decide) (by decide)

end Scraper
